import Mathlib

/-!
Verification development for the Dispa-SET postprocessing layer
(`dispaset/postprocessing/plot.py`).  The pandas data structures are shallowly
embedded: a series is a list of rational values positionally aligned with a
time index, a data frame is an ordered association list from column labels to
value columns.  Values are modelled as rationals (the code works with floats;
the arithmetic identities under scrutiny are exact).
-/

namespace DispaSet

/-- A column of per-timestep values (one entry per timestamp of the shared
time index, positionally aligned) — a pandas column. -/
abbrev Col := List ℚ

/-- A dispatch frame: ordered association list of (column label, values),
mirroring a pandas DataFrame over a shared time index. -/
abbrev Frame := List (String × Col)

/-- Labels of a frame's columns, in order (pandas `df.columns`). -/
def colNames (f : Frame) : List String := f.map Prod.fst

/-- Value columns of a frame, in order. -/
def colsOf (f : Frame) : List Col := f.map Prod.snd

/-- First column with the given label, if any (pandas column read access). -/
def getCol : Frame → String → Option Col
  | [], _ => none
  | (m, c) :: f, n => if m = n then some c else getCol f n

/-- Replace the values of every column labelled `n` (pandas column
assignment; frames built by the pipeline have unique labels). -/
def setCol : Frame → String → Col → Frame
  | [], _, _ => []
  | (m, c) :: f, n, v => (m, if m = n then v else c) :: setCol f n v

/-- The interconnection-netting step at the head of `plot_dispatch`
(plot.py lines 57–59): when both a `FlowIn` and a `FlowOut` column are
present, `FlowOut` is reassigned `np.minimum(0, FlowIn + FlowOut)` and
`FlowIn` is reassigned `np.maximum(0, FlowOut + FlowIn)`, elementwise;
otherwise the frame is left untouched. -/
def seriesNet (f : Frame) : Frame :=
  match getCol f "FlowIn", getCol f "FlowOut" with
  | some fi, some fo =>
      setCol
        (setCol f "FlowOut" ((List.zipWith (fun a b => a + b) fi fo).map (fun x => min 0 x)))
        "FlowIn" ((List.zipWith (fun a b => a + b) fo fi).map (fun x => max 0 x))
  | _, _ => f

theorem getCol_setCol_same (f : Frame) (n : String) (v : Col) :
    getCol (setCol f n v) n = (getCol f n).map (fun _ => v) := by
  induction f with
  | nil => rfl
  | cons p f ih =>
    obtain ⟨m, c⟩ := p
    by_cases h : m = n <;> simp [getCol, setCol, h, ih]

theorem getCol_setCol_other (f : Frame) (m n : String) (v : Col) (h : m ≠ n) :
    getCol (setCol f n v) m = getCol f m := by
  induction f with
  | nil => rfl
  | cons p f ih =>
    obtain ⟨k, c⟩ := p
    by_cases hk : k = m
    · subst hk
      simp [getCol, setCol, if_neg h]
    · simp [getCol, setCol, hk, ih]

theorem setCol_setCol_same (f : Frame) (n : String) (u v : Col) :
    setCol (setCol f n u) n v = setCol f n v := by
  induction f with
  | nil => rfl
  | cons p f ih =>
    obtain ⟨m, c⟩ := p
    by_cases h : m = n <;> simp [setCol, h, ih]

theorem setCol_comm (f : Frame) (m n : String) (u v : Col) (h : m ≠ n) :
    setCol (setCol f m u) n v = setCol (setCol f n v) m u := by
  induction f with
  | nil => rfl
  | cons p f ih =>
    obtain ⟨k, c⟩ := p
    by_cases hm : k = m
    · have hn : ¬ k = n := fun hkn => h (hm.symm.trans hkn)
      simp [setCol, hm, hn, ih, h, Ne.symm h]
    · by_cases hn : k = n <;> simp [setCol, hm, hn, ih, h, Ne.symm h]

theorem setCol_not_mem (f : Frame) (n : String) (v : Col) (h : n ∉ colNames f) :
    setCol f n v = f := by
  induction f with
  | nil => rfl
  | cons p f ih =>
    obtain ⟨m, c⟩ := p
    simp only [colNames, List.map_cons, List.mem_cons, not_or] at h
    have hm : ¬ m = n := fun hmn => h.1 hmn.symm
    simp [setCol, hm, ih (by simpa [colNames] using h.2)]

theorem setCol_of_getCol_nodup (f : Frame) (n : String) (v : Col)
    (hnd : (colNames f).Nodup) (h : getCol f n = some v) :
    setCol f n v = f := by
  induction f with
  | nil => simp [getCol] at h
  | cons p f ih =>
    obtain ⟨m, c⟩ := p
    simp only [colNames, List.map_cons, List.nodup_cons] at hnd
    by_cases hm : m = n
    · subst hm
      have hcv : c = v := by simpa [getCol] using h
      rw [setCol, if_pos rfl, hcv, setCol_not_mem f m v hnd.1]
    · simp only [getCol, if_neg hm] at h
      simp [setCol, hm, ih hnd.2 h]

/-- Pointwise sum of two columns commutes. -/
theorem zipWith_add_comm (a b : Col) :
    List.zipWith (fun x y => x + y) a b = List.zipWith (fun x y => x + y) b a := by
  exact List.zipWith_comm_of_comm _ (fun x y => add_comm x y) a b

theorem zipWith_map_same {α β : Type} (g : β → β → α) (u v : ℚ → β) (w : Col) :
    List.zipWith g (w.map u) (w.map v) = w.map (fun x => g (u x) (v x)) := by
  induction w with
  | nil => rfl
  | cons x w ih => simp [ih]

/-- Unfolding of the netting step when both flow columns are present. -/
theorem seriesNet_of_some (g : Frame) (a b : Col) (ha : getCol g "FlowIn" = some a)
    (hb : getCol g "FlowOut" = some b) :
    seriesNet g =
      setCol (setCol g "FlowOut" ((List.zipWith (fun x y => x + y) a b).map (fun x => min 0 x)))
        "FlowIn" ((List.zipWith (fun x y => x + y) b a).map (fun x => max 0 x)) := by
  unfold seriesNet
  rw [ha, hb]

/-- Unfolding of the netting step when a flow column is missing. -/
theorem seriesNet_of_none (g : Frame)
    (h : getCol g "FlowIn" = none ∨ getCol g "FlowOut" = none) : seriesNet g = g := by
  unfold seriesNet
  rcases h with h | h
  · rw [h]
  · rw [h]
    cases getCol g "FlowIn" <;> rfl

/-- C2 — the SeriesNetter contract: on a frame holding both a `FlowIn` and a
`FlowOut` column, the netting step replaces them pointwise with
`newFlowOut = min 0 (FlowIn + FlowOut)` and `newFlowIn = max 0 (FlowIn + FlowOut)`;
on a frame missing at least one of the two columns it is the identity. -/
theorem netting_replaces_flow_pair (f : Frame) :
    (∀ fi fo, getCol f "FlowIn" = some fi → getCol f "FlowOut" = some fo →
      getCol (seriesNet f) "FlowOut" =
        some ((List.zipWith (fun a b => a + b) fi fo).map (fun x => min 0 x)) ∧
      getCol (seriesNet f) "FlowIn" =
        some ((List.zipWith (fun a b => a + b) fi fo).map (fun x => max 0 x))) ∧
    ((getCol f "FlowIn" = none ∨ getCol f "FlowOut" = none) → seriesNet f = f) := by
  constructor
  · intro fi fo hfi hfo
    have hne : "FlowOut" ≠ "FlowIn" := by decide
    rw [seriesNet_of_some f fi fo hfi hfo]
    constructor
    · rw [getCol_setCol_other _ _ _ _ hne, getCol_setCol_same, hfo]
      rfl
    · rw [getCol_setCol_same, getCol_setCol_other _ _ _ _ hne.symm, hfi,
        zipWith_add_comm fo fi]
      rfl
  · exact seriesNet_of_none f

/-- The netting step computed on an already-netted pair reproduces it. -/
theorem min_max_recombine (w : Col) :
    List.zipWith (fun a b => a + b) (w.map (fun x => max 0 x)) (w.map (fun x => min 0 x)) = w := by
  rw [zipWith_map_same]
  have h : ∀ x : ℚ, max 0 x + min 0 x = x := by
    intro x
    rw [max_add_min]
    exact zero_add x
  simp [h]

/-- C3 — netting is idempotent: applying the SeriesNetter step twice yields
exactly the frame obtained by applying it once, for every dispatch frame. -/
theorem netting_idempotent (f : Frame) :
    seriesNet (seriesNet f) = seriesNet f := by
  rcases hfi : getCol f "FlowIn" with _ | fi
  · have h : seriesNet f = f := seriesNet_of_none f (Or.inl hfi)
    rw [h, h]
  rcases hfo : getCol f "FlowOut" with _ | fo
  · have h : seriesNet f = f := seriesNet_of_none f (Or.inr hfo)
    rw [h, h]
  have hne : "FlowOut" ≠ "FlowIn" := by decide
  have hw2 : List.zipWith (fun x y => x + y) fo fi = List.zipWith (fun x y => x + y) fi fo :=
    zipWith_add_comm fo fi
  have hnet : seriesNet f =
      setCol
        (setCol f "FlowOut" ((List.zipWith (fun x y => x + y) fi fo).map (fun x => min 0 x)))
        "FlowIn" ((List.zipWith (fun x y => x + y) fi fo).map (fun x => max 0 x)) := by
    rw [seriesNet_of_some f fi fo hfi hfo, hw2]
  have hgo : getCol (seriesNet f) "FlowOut" =
      some ((List.zipWith (fun x y => x + y) fi fo).map (fun x => min 0 x)) := by
    rw [hnet, getCol_setCol_other _ _ _ _ hne, getCol_setCol_same, hfo]
    rfl
  have hgi : getCol (seriesNet f) "FlowIn" =
      some ((List.zipWith (fun x y => x + y) fi fo).map (fun x => max 0 x)) := by
    rw [hnet, getCol_setCol_same, getCol_setCol_other _ _ _ _ hne.symm, hfi]
    rfl
  have key : ∀ (g : Frame) (vO vI : Col),
      setCol (setCol (setCol (setCol g "FlowOut" vO) "FlowIn" vI) "FlowOut" vO) "FlowIn" vI
        = setCol (setCol g "FlowOut" vO) "FlowIn" vI := by
    intro g vO vI
    rw [setCol_comm (setCol g "FlowOut" vO) "FlowIn" "FlowOut" vI vO hne.symm,
      setCol_setCol_same, setCol_setCol_same]
  rw [seriesNet_of_some (seriesNet f) _ _ hgi hgo,
    min_max_recombine (List.zipWith (fun x y => x + y) fi fo),
    zipWith_add_comm ((List.zipWith (fun x y => x + y) fi fo).map (fun x => min 0 x))
      ((List.zipWith (fun x y => x + y) fi fo).map (fun x => max 0 x)),
    min_max_recombine (List.zipWith (fun x y => x + y) fi fo), hnet]
  exact key f _ _

/-- A concrete two-column frame with an un-netted flow pair. -/
def exNetFrame : Frame := [("FlowIn", [5]), ("FlowOut", [-2])]

/-- Witness for the netting contract at a concrete frame (FlowIn 5, FlowOut −2). -/
theorem netting_replaces_flow_pair_witness :
    getCol (seriesNet exNetFrame) "FlowOut" =
      some ((List.zipWith (fun a b => a + b) [5] [-2]).map (fun x => min 0 x)) ∧
    getCol (seriesNet exNetFrame) "FlowIn" =
      some ((List.zipWith (fun a b => a + b) [5] [-2]).map (fun x => max 0 x)) :=
  (netting_replaces_flow_pair exNetFrame).1 [5] [-2] rfl rfl

/-- Mean of a column (pandas Series.mean; only ever taken on nonempty columns
by the code, the empty case is junk). -/
def colMean (c : Col) : ℚ := c.sum / (c.length : ℚ)

/-- The zero-line search loop of `plot_dispatch` (plot.py lines 62–67):
starting from column index 0, advance the cursor while the mean of the current
column is ≤ 0 and the cursor has not reached the last column.  The fuel
argument bounds the iterations; the loop increments at most length−1 times,
so fuel = length is never exhausted. -/
def idxZeroGo (cs : List Col) : ℕ → ℕ → ℕ
  | i, 0 => i
  | i, fuel + 1 =>
    if colMean (cs.getD i []) ≤ 0 ∧ i < cs.length - 1 then idxZeroGo cs (i + 1) fuel else i

/-- Position of the zero line: number of leading columns classified as the
negative block by the whole-series-mean heuristic. -/
def idxZero (cs : List Col) : ℕ := idxZeroGo cs 0 cs.length

/-- The values of the given columns at timestep `t` (one frame row). -/
def rowAt (cs : List Col) (t : ℕ) : List ℚ := cs.map (fun c => c.getD t 0)

/-- Running sums with start value `a` (pandas cumsum along one row). -/
def cumsumFrom (a : ℚ) : List ℚ → List ℚ
  | [] => []
  | x :: xs => (a + x) :: cumsumFrom (a + x) xs

def cumsum (xs : List ℚ) : List ℚ := cumsumFrom 0 xs

/-- One row of `sumplot_neg` (plot.py lines 69–75): boundaries of the negative
block — the first column is the raw sum of the block's columns, then each
negated column is cumulatively added, walking from that sum toward zero. -/
def sumplotNegRow (cs : List Col) (k t : ℕ) : List ℚ :=
  cumsum ((rowAt (cs.take k) t).sum :: (rowAt (cs.take k) t).map (fun x => -x))

/-- One row of `sumplot_pos` (plot.py lines 77–79): cumulative sums of the
columns right of the zero line, with a synthetic zero boundary prepended. -/
def sumplotPosRow (cs : List Col) (k t : ℕ) : List ℚ :=
  0 :: cumsum (rowAt (cs.drop k) t)

theorem cumsumFrom_getLastD (xs : List ℚ) (a : ℚ) :
    (cumsumFrom a xs).getLastD a = a + xs.sum := by
  induction xs generalizing a with
  | nil => simp [cumsumFrom]
  | cons x xs ih =>
    rw [cumsumFrom, List.getLastD_cons, ih (a + x), List.sum_cons, add_assoc]

/-- C4 — conservation of the stacked layout: at every timestep, the positive
block's final upper boundary plus the negative block's final lower boundary
(its first `sumplot_neg` column, the signed sum of the negative columns)
equals the algebraic sum of all of the frame's columns. -/
theorem stack_conservation (f : Frame) (t : ℕ) :
    (sumplotPosRow (colsOf f) (idxZero (colsOf f)) t).getLastD 0
      + (sumplotNegRow (colsOf f) (idxZero (colsOf f)) t).headD 0
      = (rowAt (colsOf f) t).sum := by
  have hpos : ∀ (cs : List Col) (k : ℕ),
      (sumplotPosRow cs k t).getLastD 0 = (rowAt (cs.drop k) t).sum := by
    intro cs k
    rw [sumplotPosRow, List.getLastD_cons, cumsum, cumsumFrom_getLastD, zero_add]
  have hneg : ∀ (cs : List Col) (k : ℕ),
      (sumplotNegRow cs k t).headD 0 = (rowAt (cs.take k) t).sum := by
    intro cs k
    rw [sumplotNegRow, cumsum, cumsumFrom, List.headD_cons, zero_add]
  rw [hpos, hneg]
  have hsplit : rowAt ((colsOf f).take (idxZero (colsOf f))) t
        ++ rowAt ((colsOf f).drop (idxZero (colsOf f))) t = rowAt (colsOf f) t := by
    rw [rowAt, rowAt, rowAt, ← List.map_append, List.take_append_drop]
  rw [← hsplit, List.sum_append, add_comm]

/-- The frame of the spec's stack-split example: columns ordered
Export (−5,−5), Curtail (0,0), Gas (60,60), Wind (40,42). -/
def exStackFrame : Frame :=
  [("Export", [-5, -5]), ("Curtail", [0, 0]), ("Gas", [60, 60]), ("Wind", [40, 42])]

/-- Labels of the columns placed in the negative block by the zero-line scan. -/
def negBlockLabels (f : Frame) : List String := (colNames f).take (idxZero (colsOf f))

/-- C5 counterexample — on the spec's example frame the negative block is NOT
exactly [Export]: the zero-line scan also walks past Curtail (mean 0 ≤ 0),
so Curtail lands in the negative block as well. -/
theorem stack_split_example_cex : negBlockLabels exStackFrame ≠ ["Export"] := by
  norm_num [negBlockLabels, exStackFrame, colNames, colsOf, idxZero, idxZeroGo, colMean]

/-- C5 amended — on the example frame the negative block consists of
[Export, Curtail] (Curtail as a zero-width segment), with cumulative
boundaries [−5, 0, 0] at both timesteps (block lower boundary −5, upper
boundary 0), and the positive block's cumulative boundaries are
[0, 60, 100] at the first timestep and [0, 60, 102] at the second. -/
theorem stack_split_example_amended :
    negBlockLabels exStackFrame = ["Export", "Curtail"] ∧
    sumplotNegRow (colsOf exStackFrame) (idxZero (colsOf exStackFrame)) 0 = [-5, 0, 0] ∧
    sumplotNegRow (colsOf exStackFrame) (idxZero (colsOf exStackFrame)) 1 = [-5, 0, 0] ∧
    sumplotPosRow (colsOf exStackFrame) (idxZero (colsOf exStackFrame)) 0 = [0, 60, 100] ∧
    sumplotPosRow (colsOf exStackFrame) (idxZero (colsOf exStackFrame)) 1 = [0, 60, 102] := by
  norm_num [negBlockLabels, exStackFrame, colNames, colsOf, idxZero, idxZeroGo, colMean,
    sumplotNegRow, sumplotPosRow, rowAt, cumsum, cumsumFrom]

/-- A pandas Series with an explicit time index: parallel lists of
timestamps and values. -/
structure TSeries where
  idx : List ℕ
  val : List ℚ
deriving DecidableEq

/-- The failure raised by `sys.exit(1)` on a time-index mismatch. -/
inductive PErr where
  | IndexMismatch
deriving DecidableEq

/-- Pointwise sum of two aligned series (pandas +). -/
def sAdd (a b : List ℚ) : List ℚ := List.zipWith (fun x y => x + y) a b

/-- Pointwise difference of two aligned series (pandas −). -/
def sSub (a b : List ℚ) : List ℚ := List.zipWith (fun x y => x - y) a b

/-- pandas Series.max(): none (NaN) on an empty series. -/
def seriesMax : List ℚ → Option ℚ
  | [] => none
  | x :: xs => some (xs.foldl max x)

/-- pandas Series.min(): none (NaN) on an empty series. -/
def seriesMin : List ℚ → Option ℚ
  | [] => none
  | x :: xs => some (xs.foldl min x)

/-- Whether a supplied optional series' index differs from demand's index
(the `not .index.equals(demand.index)` guards of plot_dispatch). -/
def idxMismatch (dIdx : List ℕ) : Option TSeries → Bool
  | none => false
  | some s => decide (s.idx ≠ dIdx)

/-- The observable outcome of a `plot_dispatch` call: the contents of the
caller-supplied `plotdata` frame after the call (the netting assignment at
lines 57–59 writes into it), the failure if one was raised, and the reduced
demand (demand − shedload − shiftedload) computed on success. -/
structure DispatchOutcome where
  frameAfter : Frame
  err : Option PErr
  result : Option (List ℚ)
deriving DecidableEq

/-- Shallow embedding of the data behaviour of `plot_dispatch` (plot.py
lines 27–198; rendering and the rng plotting window are omitted): net the
flow pair in place, then exit with an index mismatch if a supplied
curtailment (line 151), shedload (line 165) or shiftedload (line 171) series'
index is not identical to demand's, otherwise compute the reduced demand
`demand + load_change` with `load_change = −shedload − shiftedload`
(lines 162–176). -/
def plotDispatch (dIdx : List ℕ) (dVal : List ℚ) (plotdata : Frame)
    (curtailment shedload shiftedload : Option TSeries) : DispatchOutcome :=
  let f2 := seriesNet plotdata
  if idxMismatch dIdx curtailment || idxMismatch dIdx shedload
      || idxMismatch dIdx shiftedload then
    ⟨f2, some PErr.IndexMismatch, none⟩
  else
    let shedV := match shedload with
      | none => List.replicate dIdx.length 0
      | some s => s.val
    let shiftV := match shiftedload with
      | none => List.replicate dIdx.length 0
      | some s => s.val
    ⟨f2, none, some (sSub (sSub dVal shedV) shiftV)⟩

theorem idxMismatch_eq_true (dIdx : List ℕ) (o : Option TSeries) :
    idxMismatch dIdx o = true ↔ ∃ s, o = some s ∧ s.idx ≠ dIdx := by
  cases o <;> simp [idxMismatch]

/-- C7 — `plot_dispatch` fails with an index-mismatch condition, producing no
result, exactly when some supplied shedload, shiftedload or curtailment
series' time index is not identical to demand's index. -/
theorem reconcile_index_mismatch (dIdx : List ℕ) (dVal : List ℚ) (f : Frame)
    (curtailment shedload shiftedload : Option TSeries) :
    ((plotDispatch dIdx dVal f curtailment shedload shiftedload).err
        = some PErr.IndexMismatch ∧
     (plotDispatch dIdx dVal f curtailment shedload shiftedload).result = none)
    ↔ ((∃ s, curtailment = some s ∧ s.idx ≠ dIdx) ∨
       (∃ s, shedload = some s ∧ s.idx ≠ dIdx) ∨
       (∃ s, shiftedload = some s ∧ s.idx ≠ dIdx)) := by
  have hb : (idxMismatch dIdx curtailment || idxMismatch dIdx shedload
        || idxMismatch dIdx shiftedload) = true
      ↔ ((∃ s, curtailment = some s ∧ s.idx ≠ dIdx) ∨
         (∃ s, shedload = some s ∧ s.idx ≠ dIdx) ∨
         (∃ s, shiftedload = some s ∧ s.idx ≠ dIdx)) := by
    simp [idxMismatch_eq_true, or_assoc]
  rw [← hb]
  cases h : (idxMismatch dIdx curtailment || idxMismatch dIdx shedload
      || idxMismatch dIdx shiftedload) <;>
    simp [plotDispatch, h]

/-- Witness for the index-mismatch failure: a shed-load series missing
timestamp 1 of demand's index [0, 1] fails with IndexMismatch and no result. -/
theorem reconcile_index_mismatch_witness :
    (plotDispatch [0, 1] [100, 100] [] none (some ⟨[0], [7]⟩) none).err
        = some PErr.IndexMismatch ∧
    (plotDispatch [0, 1] [100, 100] [] none (some ⟨[0], [7]⟩) none).result = none :=
  (reconcile_index_mismatch [0, 1] [100, 100] [] none (some ⟨[0], [7]⟩) none).mpr
    (Or.inr (Or.inl ⟨⟨[0], [7]⟩, rfl, by decide⟩))

/-- Every call leaves the caller-supplied frame holding the netted values. -/
theorem plotDispatch_frameAfter (dIdx : List ℕ) (dVal : List ℚ) (f : Frame)
    (curtailment shedload shiftedload : Option TSeries) :
    (plotDispatch dIdx dVal f curtailment shedload shiftedload).frameAfter
      = seriesNet f := by
  unfold plotDispatch
  split <;> rfl

/-- C9 counterexample — the caller-supplied dispatch frame does NOT hold the
same values after the call: with FlowIn = [5] and FlowOut = [−2], the netting
step overwrites both columns in place. -/
theorem dispatch_mutates_frame_cex :
    (plotDispatch [0] [100] exNetFrame none none none).frameAfter ≠ exNetFrame := by
  have hIO : ¬ ("FlowIn" : String) = "FlowOut" := by decide
  have hOI : ¬ ("FlowOut" : String) = "FlowIn" := by decide
  rw [plotDispatch_frameAfter, seriesNet_of_some exNetFrame [5] [-2] rfl rfl]
  norm_num [setCol, exNetFrame, min_def, max_def, hIO, hOI]

/-- C9 amended — `plot_dispatch` mutates the caller-supplied frame in place:
after every call the frame holds the netted flow pair; when both flow columns
are present (unique labels), the frame is unchanged by the call iff the pair
was already in netted form, i.e. iff pointwise
FlowOut = min 0 (FlowIn + FlowOut) and FlowIn = max 0 (FlowIn + FlowOut). -/
theorem dispatch_frame_after_iff (dIdx : List ℕ) (dVal : List ℚ) (f : Frame)
    (curtailment shedload shiftedload : Option TSeries)
    (hnd : (colNames f).Nodup) (fi fo : Col)
    (hfi : getCol f "FlowIn" = some fi) (hfo : getCol f "FlowOut" = some fo) :
    (plotDispatch dIdx dVal f curtailment shedload shiftedload).frameAfter
      = seriesNet f ∧
    ((plotDispatch dIdx dVal f curtailment shedload shiftedload).frameAfter = f ↔
      (fo = (List.zipWith (fun a b => a + b) fi fo).map (fun x => min 0 x) ∧
       fi = (List.zipWith (fun a b => a + b) fi fo).map (fun x => max 0 x))) := by
  have hne : "FlowOut" ≠ "FlowIn" := by decide
  have hnet := seriesNet_of_some f fi fo hfi hfo
  refine ⟨plotDispatch_frameAfter _ _ _ _ _ _, ?_⟩
  rw [plotDispatch_frameAfter, hnet]
  constructor
  · intro h
    constructor
    · have h2 := congrArg (fun g => getCol g "FlowOut") h
      simp only [getCol_setCol_other _ _ _ _ hne, getCol_setCol_same, hfo,
        Option.map_some] at h2
      exact (Option.some_inj.mp h2).symm
    · have h2 := congrArg (fun g => getCol g "FlowIn") h
      simp only [getCol_setCol_same, getCol_setCol_other _ _ _ _ hne.symm, hfi,
        Option.map_some] at h2
      rw [zipWith_add_comm fo fi] at h2
      exact (Option.some_inj.mp h2).symm
  · rintro ⟨ho, hi⟩
    rw [← ho, zipWith_add_comm fo fi, ← hi,
      setCol_of_getCol_nodup f _ _ hnd hfo, setCol_of_getCol_nodup f _ _ hnd hfi]

/-- A concrete frame whose flow pair is already in netted form. -/
def exNettedFrame : Frame := [("FlowIn", [3]), ("FlowOut", [0])]

/-- Witness for the amended mutation claim at a concrete already-netted frame. -/
theorem dispatch_frame_after_iff_witness :
    (plotDispatch [0] [100] exNettedFrame none none none).frameAfter
      = seriesNet exNettedFrame ∧
    ((plotDispatch [0] [100] exNettedFrame none none none).frameAfter = exNettedFrame ↔
      (([0] : Col) = (List.zipWith (fun a b => a + b) [3] [0]).map (fun x => min 0 x) ∧
       ([3] : Col) = (List.zipWith (fun a b => a + b) [3] [0]).map (fun x => max 0 x))) :=
  dispatch_frame_after_iff [0] [100] exNettedFrame none none none
    (by decide) [3] [0] rfl rfl

/-- Realign a series to a new index by timestamp label, filling timestamps
absent from `s.idx` with 0 — `pd.Series(s, index=newIdx).fillna(0)`. -/
def reindexFill (s : TSeries) (newIdx : List ℕ) : TSeries :=
  ⟨newIdx, newIdx.map (fun t => ((s.idx.zip s.val).lookup t).getD 0)⟩

theorem lookup_zip_not_mem (idx : List ℕ) (val : List ℚ) (t : ℕ) (h : t ∉ idx) :
    (idx.zip val).lookup t = none := by
  induction idx generalizing val with
  | nil => simp [List.lookup]
  | cons a idx ih =>
    rcases val with _ | ⟨v, val⟩
    · simp [List.lookup]
    · simp only [List.mem_cons, not_or] at h
      have hb : (t == a) = false := beq_eq_false_iff_ne.mpr h.1
      rw [List.zip_cons_cons]
      simp only [List.lookup, hb]
      exact ih val h.2

theorem lookup_zip_pos (idx : List ℕ) (val : List ℚ) (hnd : idx.Nodup)
    (hlen : val.length = idx.length) (i : ℕ) (hi : i < idx.length) :
    (idx.zip val).lookup (idx.getD i 0) = some (val.getD i 0) := by
  induction idx generalizing val i with
  | nil => simp at hi
  | cons a idx ih =>
    rcases val with _ | ⟨v, val⟩
    · simp at hlen
    rcases i with _ | i
    · simp [List.lookup]
    · have hi' : i < idx.length := by simpa using hi
      have hlen' : val.length = idx.length := by simpa using hlen
      have hnd' := List.nodup_cons.mp hnd
      have hmem : idx.getD i 0 ∈ idx := by
        rw [List.getD_eq_getElem _ _ hi']
        exact List.getElem_mem hi'
      have hne : ¬ a = idx.getD i 0 := fun hat => hnd'.1 (hat ▸ hmem)
      have hb : (idx.getD i 0 == a) = false :=
        beq_eq_false_iff_ne.mpr (fun hia => hne hia.symm)
      rw [List.zip_cons_cons, List.getD_cons_succ, List.getD_cons_succ]
      simp only [List.lookup, hb]
      exact ih val hnd'.2 hlen' i hi'

/-- Realigning a series to its own duplicate-free index is the identity. -/
theorem reindexFill_self (s : TSeries) (hnd : s.idx.Nodup)
    (hlen : s.val.length = s.idx.length) : reindexFill s s.idx = s := by
  obtain ⟨idx, val⟩ := s
  simp only [reindexFill, TSeries.mk.injEq, true_and]
  apply List.ext_getElem
  · simpa using hlen.symm
  · intro i h1 h2
    have hi : i < idx.length := by simpa using h1
    rw [List.getElem_map]
    have := lookup_zip_pos idx val hnd hlen i hi
    rw [List.getD_eq_getElem _ _ hi] at this
    rw [this]
    simp [List.getElem?_eq_getElem h2]

/-- The outcome of plot_zone's balance-reconciliation section. -/
structure ZoneOutcome where
  shedLoad : TSeries
  shiftedLoad : TSeries
  diff : List ℚ
  violation : Bool
  dispatch : DispatchOutcome
  returned : Bool

/-- Line 419: `diff = (sum_generation - demand + shifted_load + shed_load).abs()`. -/
def balanceDiff (sumGen dVal shiftV shedV : List ℚ) : List ℚ :=
  (sAdd (sAdd (sSub sumGen dVal) shiftV) shedV).map (fun x => |x|)

/-- Line 421: the reconciliation-violation test `diff.max() > 0.01 * demand.max()`
(pandas comparisons against NaN maxima of empty series are False). -/
def balanceViolation (diff dVal : List ℚ) : Bool :=
  match seriesMax diff, seriesMax dVal with
  | some a, some b => decide (a > 1 / 100 * b)
  | _, _ => false

/-- Shallow embedding of plot_zone's balance section (plot.py lines 407–431
and the final `return True`), on the already unit-converted (GW) data:
`dIdx`/`dVal` are the demand index and values, `plotdata` the generation
frame, `shedRes` models `results['OutputShedLoad'][z]` (`none` when the key
is absent), `shiftRes` models `results['OutputDemandModulation'][z]`
(negated by line 415 before realignment), `curtRes` the curtailment series
passed to plot_dispatch unrealigned (line 426).  Supplied shed/shift series
are realigned to demand's index with missing timestamps filled with 0
(lines 409–418); `diff = |sum_generation − demand + shifted_load +
shed_load|` (line 419); the violation diagnostic fires iff
`diff.max() > 0.01 * demand.max()` (line 421) and aborts nothing; plot_zone
returns True unless plot_dispatch exits. -/
def plotZone (dIdx : List ℕ) (dVal : List ℚ) (plotdata : Frame)
    (shedRes shiftRes curtRes : Option TSeries) : ZoneOutcome :=
  let n := dIdx.length
  let sumGen := (List.range n).map (fun t => (rowAt (colsOf plotdata) t).sum)
  let shed := match shedRes with
    | some s => reindexFill s dIdx
    | none => ⟨dIdx, List.replicate n 0⟩
  let shift := match shiftRes with
    | some s => reindexFill ⟨s.idx, s.val.map (fun x => -x)⟩ dIdx
    | none => ⟨dIdx, List.replicate n 0⟩
  let diff := balanceDiff sumGen dVal shift.val shed.val
  let dispatch := plotDispatch dIdx dVal plotdata curtRes (some shed) (some shift)
  ⟨shed, shift, diff, balanceViolation diff dVal, dispatch, dispatch.err.isNone⟩

theorem getD_map {α β : Type} (u : α → β) (l : List α) (t : ℕ) (dA : α) (dB : β)
    (h : t < l.length) : (l.map u).getD t dB = u (l.getD t dA) := by
  rw [List.getD_eq_getElem _ _ (by simpa using h), List.getD_eq_getElem _ _ h,
    List.getElem_map]

theorem getD_zipWith (g : ℚ → ℚ → ℚ) (a b : List ℚ) (t : ℕ)
    (ha : t < a.length) (hb : t < b.length) :
    (List.zipWith g a b).getD t 0 = g (a.getD t 0) (b.getD t 0) := by
  induction a generalizing b t with
  | nil => simp at ha
  | cons x a ih =>
    rcases b with _ | ⟨y, b⟩
    · simp at hb
    rcases t with _ | t
    · simp
    · have ha' : t < a.length := by simpa using ha
      have hb' : t < b.length := by simpa using hb
      simp only [List.zipWith_cons_cons, List.getD_cons_succ]
      exact ih b t ha' hb'

theorem getD_range_map (g : ℕ → ℚ) (n t : ℕ) (h : t < n) :
    ((List.range n).map g).getD t 0 = g t := by
  rw [List.getD_eq_getElem _ _ (by simpa using h), List.getElem_map, List.getElem_range]

theorem balanceDiff_getD (sumGen dVal shiftV shedV : List ℚ) (t : ℕ)
    (h1 : t < sumGen.length) (h2 : t < dVal.length)
    (h3 : t < shiftV.length) (h4 : t < shedV.length) :
    (balanceDiff sumGen dVal shiftV shedV).getD t 0 =
      |sumGen.getD t 0 - dVal.getD t 0 + shiftV.getD t 0 + shedV.getD t 0| := by
  unfold balanceDiff sAdd sSub
  rw [getD_map _ _ _ (0 : ℚ) _ (by simp [sAdd, sSub]; omega),
    getD_zipWith _ _ _ _ (by simp [sAdd, sSub]; omega) h4,
    getD_zipWith _ _ _ _ (by simp [sSub]; omega) h3,
    getD_zipWith _ _ _ _ h1 h2]

theorem balanceViolation_iff (diff dVal : List ℚ) :
    balanceViolation diff dVal = true ↔
      ∃ a b, seriesMax diff = some a ∧ seriesMax dVal = some b ∧ a > 1 / 100 * b := by
  unfold balanceViolation
  cases hA : seriesMax diff <;> cases hB : seriesMax dVal <;> simp [hA, hB]

/-- C1 — balance reconciliation in plot_zone, for deduction series sharing
demand's (duplicate-free) time index: the per-timestep residual is
|sum of the generation frame's columns − demand + shifted_load + shed_load|
(here shifted_load = −modulation, per line 415); the reconciliation-violation
diagnostic fires iff max |residual| > 0.01·max demand; and the diagnostic is
advisory only — the call still completes (returns True, no failure). -/
theorem balance_residual_and_violation (dIdx : List ℕ) (dVal : List ℚ) (f : Frame)
    (shedS shiftS : TSeries)
    (hnd : dIdx.Nodup) (hd : dVal.length = dIdx.length)
    (hsi : shedS.idx = dIdx) (hsl : shedS.val.length = dIdx.length)
    (hti : shiftS.idx = dIdx) (htl : shiftS.val.length = dIdx.length) :
    (∀ t, t < dIdx.length →
      (plotZone dIdx dVal f (some shedS) (some shiftS) none).diff.getD t 0 =
        |(rowAt (colsOf f) t).sum - dVal.getD t 0 + (-(shiftS.val.getD t 0))
          + shedS.val.getD t 0|) ∧
    ((plotZone dIdx dVal f (some shedS) (some shiftS) none).violation = true ↔
      ∃ a b, seriesMax (plotZone dIdx dVal f (some shedS) (some shiftS) none).diff
          = some a ∧ seriesMax dVal = some b ∧ a > 1 / 100 * b) ∧
    (plotZone dIdx dVal f (some shedS) (some shiftS) none).returned = true := by
  have hshed : reindexFill shedS dIdx = shedS := by
    rw [← hsi]
    exact reindexFill_self shedS (hsi ▸ hnd) (by rw [hsl, hsi])
  have hshift : reindexFill ⟨shiftS.idx, shiftS.val.map (fun x => -x)⟩ dIdx
      = ⟨dIdx, shiftS.val.map (fun x => -x)⟩ := by
    rw [hti]
    exact reindexFill_self ⟨dIdx, shiftS.val.map (fun x => -x)⟩ hnd (by simpa using htl)
  refine ⟨?_, ?_, ?_⟩
  · intro t ht
    simp only [plotZone, hshed, hshift]
    rw [balanceDiff_getD _ _ _ _ t (by simpa using ht) (by rw [hd]; exact ht)
        (by simpa [htl] using ht) (by rw [hsl]; exact ht),
      getD_map _ _ _ (0 : ℚ) _ (by rw [htl]; exact ht), getD_range_map _ _ _ ht]
  · simp only [plotZone, hshed, hshift]
    exact balanceViolation_iff _ dVal
  · simp only [plotZone]
    simp [plotDispatch, idxMismatch, reindexFill]

/-- The generation frame of the spec's balance-tolerance example: one Gas
column summing to [100, 102] against demand [100, 100]. -/
def exBalanceFrame : Frame := [("Gas", [100, 102])]

/-- Witness for the balance-reconciliation theorem at the spec's example:
demand [100,100], generation summing to [100,102], shed = shift = 0. -/
theorem balance_residual_and_violation_witness :
    (plotZone [0, 1] [100, 100] exBalanceFrame (some ⟨[0, 1], [0, 0]⟩)
        (some ⟨[0, 1], [0, 0]⟩) none).diff.getD 1 0 =
      |(rowAt (colsOf exBalanceFrame) 1).sum - (100 : ℚ) + (-(0 : ℚ)) + 0| ∧
    (plotZone [0, 1] [100, 100] exBalanceFrame (some ⟨[0, 1], [0, 0]⟩)
        (some ⟨[0, 1], [0, 0]⟩) none).returned = true := by
  have h := balance_residual_and_violation [0, 1] [100, 100] exBalanceFrame
    ⟨[0, 1], [0, 0]⟩ ⟨[0, 1], [0, 0]⟩ (by decide) rfl rfl rfl rfl rfl
  exact ⟨h.1 1 (by decide), h.2.2⟩

/-- C10 — the zone-level driver silently realigns a supplied shed-load (or
shifted/modulated-load) result series to demand's index: the realigned series
carries demand's index, timestamps missing from the result series get value 0,
timestamps present keep their value, and the realigned series is what is
passed to plot_dispatch, so a missing timestamp never triggers the
index-mismatch failure on this path (no curtailment supplied). -/
theorem zone_reindex_fill (dIdx : List ℕ) (dVal : List ℚ) (f : Frame) (s r : TSeries)
    (hnd : s.idx.Nodup) (hlen : s.val.length = s.idx.length) :
    (plotZone dIdx dVal f (some s) (some r) none).shedLoad.idx = dIdx ∧
    (plotZone dIdx dVal f (some s) (some r) none).shiftedLoad.idx = dIdx ∧
    (∀ i, i < dIdx.length → dIdx.getD i 0 ∉ s.idx →
      (plotZone dIdx dVal f (some s) (some r) none).shedLoad.val.getD i 0 = 0) ∧
    (∀ i j, i < dIdx.length → j < s.idx.length → dIdx.getD i 0 = s.idx.getD j 0 →
      (plotZone dIdx dVal f (some s) (some r) none).shedLoad.val.getD i 0
        = s.val.getD j 0) ∧
    (plotZone dIdx dVal f (some s) (some r) none).dispatch =
      plotDispatch dIdx dVal f none
        (some (plotZone dIdx dVal f (some s) (some r) none).shedLoad)
        (some (plotZone dIdx dVal f (some s) (some r) none).shiftedLoad) ∧
    (plotZone dIdx dVal f (some s) (some r) none).dispatch.err = none ∧
    (plotZone dIdx dVal f (some s) (some r) none).returned = true := by
  refine ⟨rfl, rfl, ?_, ?_, rfl, ?_, ?_⟩
  · intro i hi hmem
    simp only [plotZone, reindexFill]
    rw [getD_map _ _ _ 0 (0 : ℚ) hi, lookup_zip_not_mem s.idx s.val _ hmem]
    rfl
  · intro i j hi hj hij
    simp only [plotZone, reindexFill]
    rw [getD_map _ _ _ 0 (0 : ℚ) hi, hij, lookup_zip_pos s.idx s.val hnd hlen j hj]
    rfl
  · simp only [plotZone]
    simp [plotDispatch, idxMismatch, reindexFill]
  · simp only [plotZone]
    simp [plotDispatch, idxMismatch, reindexFill]

/-- Witness for the realignment claim: demand index [0, 1], shed-load result
series defined only at timestamp 0 — the missing timestamp 1 is filled with 0
and no index-mismatch failure occurs. -/
theorem zone_reindex_fill_witness :
    (plotZone [0, 1] [100, 100] [] (some ⟨[0], [7]⟩)
        (some ⟨[0, 1], [0, 0]⟩) none).shedLoad.idx = [0, 1] ∧
    (plotZone [0, 1] [100, 100] [] (some ⟨[0], [7]⟩)
        (some ⟨[0, 1], [0, 0]⟩) none).shedLoad.val.getD 1 0 = 0 ∧
    (plotZone [0, 1] [100, 100] [] (some ⟨[0], [7]⟩)
        (some ⟨[0, 1], [0, 0]⟩) none).dispatch.err = none := by
  have h := zone_reindex_fill [0, 1] [100, 100] [] ⟨[0], [7]⟩ ⟨[0, 1], [0, 0]⟩
    (by decide) rfl
  exact ⟨h.1, h.2.2.1 1 (by decide) (by decide), h.2.2.2.2.2.1⟩

/-- The storage technology families aggregated by plot_zone (line 379). -/
def storageFamilies : List String := ["HDAM", "HPHS", "BEVS", "BATS", "SCSP", "P2GS"]

/-- Per-family aggregate level over an n-step horizon: at each timestep the
sum over all unit series tagged with the family
(`filter_by_tech` + `sum(axis=1)`, plot.py lines 380–381); the unit series
are the prepared levels (capacity-scaled and BEVS availability-weighted
upstream, lines 373–377). -/
def aggFamily (units : List (String × Col)) (fam : String) (n : ℕ) : Col :=
  (List.range n).map
    (fun i => ((units.filter (fun u => u.1 == fam)).map (fun u => u.2.getD i 0)).sum)

/-- plot_zone's storage aggregation (lines 378–385, disaggregated branch):
one aggregate per family, then the zero-drop loop deletes every column whose
max and min are both exactly 0 (lines 383–385). -/
def storageAggregate (units : List (String × Col)) (n : ℕ) : List (String × Col) :=
  (storageFamilies.map (fun t => (t, aggFamily units t n))).filter
    (fun p => !(decide (seriesMax p.2 = some 0 ∧ seriesMin p.2 = some 0)))

theorem foldl_const_zero (g : ℚ → ℚ → ℚ) (hg : g 0 0 = 0) (xs : List ℚ) (a : ℚ)
    (ha : a = 0) (h : ∀ x ∈ xs, x = 0) : xs.foldl g a = 0 := by
  induction xs generalizing a with
  | nil => simpa using ha
  | cons x xs ih =>
    rw [List.foldl_cons]
    exact ih (g a x) (by rw [ha, h x (by simp), hg]) (fun y hy => h y (by simp [hy]))

/-- A nonempty all-zero series has max = min = 0. -/
theorem seriesMax_min_of_all_zero (l : List ℚ) (hne : l ≠ [])
    (h : ∀ x ∈ l, x = 0) : seriesMax l = some 0 ∧ seriesMin l = some 0 := by
  rcases l with _ | ⟨x, xs⟩
  · exact absurd rfl hne
  constructor
  · rw [seriesMax, foldl_const_zero max (by simp) xs x (h x (by simp))
      (fun y hy => h y (by simp [hy]))]
  · rw [seriesMin, foldl_const_zero min (by simp) xs x (h x (by simp))
      (fun y hy => h y (by simp [hy]))]

/-- C8 — zero-drop invariant: the storage aggregator's output never contains
a family aggregate whose max and min are both exactly 0; in particular any
family aggregate identically zero over a nonempty horizon is removed. -/
theorem storage_zero_drop (units : List (String × Col)) (n : ℕ) :
    (∀ p ∈ storageAggregate units n,
      ¬(seriesMax p.2 = some 0 ∧ seriesMin p.2 = some 0)) ∧
    (∀ fam, fam ∈ storageFamilies → 0 < n →
      (∀ i, i < n → (aggFamily units fam n).getD i 0 = 0) →
      (fam, aggFamily units fam n) ∉ storageAggregate units n) := by
  constructor
  · intro p hp
    have h := (List.mem_filter.mp hp).2
    simp only [Bool.not_eq_true', decide_eq_false_iff_not] at h
    exact h
  · intro fam _ hn hz hmem
    have h := (List.mem_filter.mp hmem).2
    simp only [Bool.not_eq_true', decide_eq_false_iff_not] at h
    apply h
    apply seriesMax_min_of_all_zero
    · intro hnil
      have := congrArg List.length hnil
      simp [aggFamily] at this
      omega
    · intro x hx
      obtain ⟨i, hi, rfl⟩ := List.mem_map.mp hx
      have hi' : i < n := List.mem_range.mp hi
      have := hz i hi'
      rwa [aggFamily, getD_range_map _ _ _ hi'] at this

/-- Witness for the zero-drop invariant: a single HDAM unit with levels
[1, 2] — the all-zero BATS aggregate is dropped from the output. -/
theorem storage_zero_drop_witness :
    ("BATS", aggFamily [("HDAM", [1, 2])] "BATS" 2)
      ∉ storageAggregate [("HDAM", [1, 2])] 2 := by
  have hne : (("HDAM" : String) == "BATS") = false := by decide
  refine (storage_zero_drop [("HDAM", [1, 2])] 2).2 "BATS" (by decide) (by decide) ?_
  intro i hi
  rw [aggFamily, getD_range_map _ _ _ hi]
  simp [hne]

/-- get_congestion's per-line congested-timestep count (plot.py lines
1112–1114): the number of window timesteps where the flow equals the
capacity limit and the limit is strictly positive. -/
def congestedCount (flow cap : String → ℕ → ℚ) (l : String) (window : List ℕ) : ℕ :=
  (window.filter (fun t => decide (flow l t = cap l t ∧ 0 < cap l t))).length

/-- The row count of the demand frame restricted to the window
(`Demand.loc[idx, :].index.size`, line 1117): the window timestamps that
belong to the demand horizon (all of them, when the window is a sub-range of
the horizon). -/
def demandLocSize (demandIdx window : List ℕ) : ℕ :=
  (window.filter (fun t => decide (t ∈ demandIdx))).length

/-- Shallow embedding of get_congestion (plot.py lines 1107–1118): lines are
the columns of the flow matrix; a line is kept iff its label neither starts
nor ends with "RoW" (`l[:3] != 'RoW' and l[-3:] != 'RoW'`); each kept line
maps to its congested count divided by the size of the demand frame
restricted to the window. -/
def getCongestion (lines : List String) (flow cap : String → ℕ → ℚ)
    (window demandIdx : List ℕ) : List (String × ℚ) :=
  (lines.filter (fun l => !(l.take 3 == "RoW") && !(l.takeRight 3 == "RoW"))).map
    (fun l => (l, (congestedCount flow cap l window : ℚ)
      / (demandLocSize demandIdx window : ℚ)))

/-- C6 counterexample — the congestion fraction is NOT normalized by the full
demand horizon: with a 2-step window inside a 4-step horizon and a line
congested at both window steps, the code yields 1, while the claimed
full-horizon normalization would give 2/4. -/
theorem congestion_denominator_cex :
    getCongestion ["AB"] (fun _ _ => 1) (fun _ _ => 1) [0, 1] [0, 1, 2, 3]
        = [("AB", 1)] ∧
    ¬((1 : ℚ) = (congestedCount (fun _ _ => 1) (fun _ _ => 1) "AB" [0, 1] : ℚ)
        / (([0, 1, 2, 3] : List ℕ).length : ℚ)) := by
  have h1 : (("AB" : String).take 3 == "RoW") = false := by decide
  have h2 : (("AB" : String).takeRight 3 == "RoW") = false := by decide
  norm_num [getCongestion, congestedCount, demandLocSize, h1, h2,
    List.filter_cons, List.filter_nil]

/-- C6 amended — for every line kept by get_congestion (label neither starting
nor ending with "RoW"), the congestion fraction equals the congested count
divided by the length of the selected window (the size of the demand frame
restricted to the window), not by the full horizon length. -/
theorem congestion_fraction_amended (lines : List String) (flow cap : String → ℕ → ℚ)
    (window demandIdx : List ℕ) (hw : ∀ t ∈ window, t ∈ demandIdx) :
    ∀ p ∈ getCongestion lines flow cap window demandIdx,
      (¬(p.1.take 3 = "RoW") ∧ ¬(p.1.takeRight 3 = "RoW")) ∧
      p.2 = (congestedCount flow cap p.1 window : ℚ) / (window.length : ℚ) := by
  have hsize : demandLocSize demandIdx window = window.length := by
    unfold demandLocSize
    rw [List.filter_eq_self.mpr (fun a ha => decide_eq_true (hw a ha))]
  intro p hp
  unfold getCongestion at hp
  obtain ⟨l, hl, rfl⟩ := List.mem_map.mp hp
  have hf := (List.mem_filter.mp hl).2
  simp only [Bool.and_eq_true, Bool.not_eq_true', beq_eq_false_iff_ne, ne_eq] at hf
  exact ⟨hf, by rw [hsize]⟩

/-- Witness for the amended congestion normalization at a concrete input:
one line, always congested over a 2-step window in a 4-step horizon. -/
theorem congestion_fraction_amended_witness :
    (¬(("AB" : String).take 3 = "RoW") ∧ ¬(("AB" : String).takeRight 3 = "RoW")) ∧
    (1 : ℚ) = (congestedCount (fun _ _ => 1) (fun _ _ => 1) "AB" [0, 1] : ℚ)
      / (([0, 1] : List ℕ).length : ℚ) := by
  have h1 : (("AB" : String).take 3 == "RoW") = false := by decide
  have h2 : (("AB" : String).takeRight 3 == "RoW") = false := by decide
  refine congestion_fraction_amended ["AB"] (fun _ _ => 1) (fun _ _ => 1) [0, 1]
    [0, 1, 2, 3] (by decide) ("AB", 1) ?_
  norm_num [getCongestion, congestedCount, demandLocSize, h1, h2,
    List.filter_cons, List.filter_nil]

end DispaSet
